import Mathlib

/-!
Verification of the AI-Agents-Orchestrator core: a shallow embedding of the
CLI communicator, retry/fallback logic, workspace tracker, circuit breaker,
token-bucket rate limiter, agent response construction, workflow engine and
orchestrator iteration loop, together with theorems about their behaviour.
-/

namespace AIOrch

/-! ## String containment utilities -/

/-- Whether the first character list is an initial segment of the second. -/
def charsStart : List Char → List Char → Bool
  | [], _ => true
  | _ :: _, [] => false
  | p :: ps, c :: cs => p == c && charsStart ps cs

/-- Whether the first character list occurs contiguously inside the second. -/
def charsHave (pat : List Char) : List Char → Bool
  | [] => pat.isEmpty
  | c :: cs => charsStart pat (c :: cs) || charsHave pat cs

/-- Whether the string `pat` occurs as a substring of `s`. -/
def strHas (s pat : String) : Bool := charsHave pat.data s.data

/-! ## CLI communicator (src/adapters/cli_communicator.py)

`CLICommunicator.execute_with_prompt` dispatches on a method name to one of
four strategies.  Each strategy spawns one external process; the spawn either
finishes within the timeout (with a return code and captured streams) or
exceeds it.  The `Env` structure records, for one call, what each kind of
spawn would do and what the auxiliary temp-file reads would yield, so the
Python control flow can be translated as a pure function of `Env`. -/

/-- The four interaction methods accepted by `execute_with_prompt`. -/
inductive Method where
  | stdin
  | file
  | arg
  | heredoc
deriving DecidableEq, Repr

/-- Outcome of one spawned process: `done` with a return code and the two
captured streams, or `timedOut` carrying whatever a post-kill
`communicate()` would return in handlers that kill and re-collect. -/
inductive ProcResult where
  | done (returncode : Int) (stdout stderr : String)
  | timedOut (killStdout killStderr : String)
deriving DecidableEq, Repr

/-- What happens in the environment of one `execute_with_prompt` call. -/
structure Env where
  /-- The `cat input | script -q out cmd` pipeline used by the stdin strategy. -/
  scriptSpawn : ProcResult
  /-- The `[cmd, --input, f, --output, g]` spawn of the file strategy. -/
  fileSpawn : ProcResult
  /-- The direct argument-passing spawn of the arg strategy. -/
  argSpawn : ProcResult
  /-- The `bash -c <heredoc script>` spawn of the heredoc strategy. -/
  heredocSpawn : ProcResult
  /-- Whether creating the temp files for the stdin strategy succeeds. -/
  scriptSetupOk : Bool
  /-- Content read back from the script output temp file (`none`: read raises). -/
  scriptOutputRead : Option String
  /-- Content of the file strategy output file (`none`: file does not exist). -/
  fileOutputRead : Option String
  /-- The Python `str()` rendering of the heredoc Popen argument list, as it
  appears inside a `TimeoutExpired` message. -/
  heredocCmdRepr : String
deriving DecidableEq, Repr

/-- The `(success, stdout, stderr)` triple returned by every strategy. -/
structure ExecTriple where
  success : Bool
  stdout : String
  stderr : String
deriving DecidableEq, Repr

/-- The tag placed in stderr by the timeout handlers of the arg and file
strategies: `Timeout after <t>s`. -/
def timeoutTag (t : Nat) : String := "Timeout after " ++ toString t ++ "s"

/-- `CLICommunicator._execute_argument`: spawn with the prompt as an argument;
on `TimeoutExpired` kill the process, re-collect the streams and return
failure with the timeout tag prepended to stderr. -/
def executeArgument (env : Env) (t : Nat) : ExecTriple :=
  match env.argSpawn with
  | .done rc out err => ⟨rc == 0, out, err⟩
  | .timedOut ks ke => ⟨false, ks, timeoutTag t ++ "\n" ++ ke⟩

/-- `CLICommunicator._execute_stdin`: run the command under `script` for a
pseudo terminal.  Any exception in the inner block — temp-file setup failure
but also `subprocess.TimeoutExpired` from `communicate` — is caught by the
inner generic handler, which falls back to `_execute_argument`.  On normal
completion the output temp file is preferred over captured stdout when it is
readable and non-empty. -/
def executeStdin (env : Env) (t : Nat) : ExecTriple :=
  if env.scriptSetupOk then
    match env.scriptSpawn with
    | .done rc out err =>
        let content := env.scriptOutputRead.getD out
        ⟨rc == 0, if content.isEmpty then out else content, err⟩
    | .timedOut _ _ => executeArgument env t
  else executeArgument env t

/-- `CLICommunicator._execute_file_based`: write the prompt to a temp file,
spawn with input and output flags, read the output file when present, else
use captured stdout; on `TimeoutExpired` kill and return failure with the
bare timeout tag. -/
def executeFileBased (env : Env) (t : Nat) : ExecTriple :=
  match env.fileSpawn with
  | .done rc out err => ⟨rc == 0, env.fileOutputRead.getD out, err⟩
  | .timedOut _ _ => ⟨false, "", timeoutTag t⟩

/-- The Python `str()` of a `subprocess.TimeoutExpired` exception:
`Command <cmd> timed out after <t> seconds`. -/
def pyTimeoutExpiredStr (cmdRepr : String) (t : Nat) : String :=
  "Command \x27" ++ cmdRepr ++ "\x27 timed out after " ++ toString t ++ " seconds"

/-- `CLICommunicator._execute_heredoc`: spawn `bash -c` with a heredoc
script.  The only handler is a generic `except Exception`, so a timeout is
reported as `str(TimeoutExpired)` — without the timeout tag and without
killing the process. -/
def executeHeredoc (env : Env) (t : Nat) : ExecTriple :=
  match env.heredocSpawn with
  | .done rc out err => ⟨rc == 0, out, err⟩
  | .timedOut _ _ => ⟨false, "", pyTimeoutExpiredStr env.heredocCmdRepr t⟩

/-- `CLICommunicator.execute_with_prompt`: dispatch on the method name. -/
def executeWithPrompt (env : Env) (m : Method) (t : Nat) : ExecTriple :=
  match m with
  | .stdin => executeStdin env t
  | .file => executeFileBased env t
  | .arg => executeArgument env t
  | .heredoc => executeHeredoc env t

/-! ## Retry with method fallback (`CLICommunicator.execute_with_retry`) -/

/-- The known Node.js runtime-incompatibility signature checked on stderr. -/
def nodeErrSig (s : String) : Bool :=
  strHas s "File is not defined" || strHas s "ReferenceError"

/-- The remediation hint substituted for the last error when the final
attempt hits the Node.js incompatibility signature. -/
def nodeHint (stderr : String) : String :=
  "Node.js compatibility error. Try upgrading Node.js to v20+: " ++
    "nvm install 20 && nvm use 20\nOriginal error: " ++ stderr

/-- The terminal failure message of `execute_with_retry`. -/
def failedMsg (maxRetries : Nat) (lastError : String) : String :=
  "Failed after " ++ toString maxRetries ++ " attempts. Last error: " ++ lastError

/-- The fallback method list seeded by the preferred method. -/
def fallbackMethods (m : Method) : List Method :=
  match m with
  | .stdin => [.stdin, .arg, .heredoc]
  | .arg => [.arg, .stdin, .heredoc]
  | _ => [m, .stdin, .arg]

/-- What one `execute_with_retry` call produced: the returned triple, the
back-off sleeps performed (in order), and the methods tried (in order). -/
structure RetryOutcome where
  result : ExecTriple
  sleeps : List ℚ
  tried : List Method
deriving DecidableEq, Repr

/-- The retry loop of `execute_with_retry`, one recursive step per loop
iteration.  `ex i m` is the triple `execute_with_prompt` returns on attempt
`i` with method `m`; `fuel` counts the remaining attempts and `attempt` is
the 0-indexed loop variable.  Before every attempt after the first the loop
sleeps `backoff * 2 ^ (attempt - 1)`; the method for attempt `i` is
`fallback[min i (len - 1)]`; a success returns immediately; a failing final
attempt whose stderr matches the Node.js signature replaces the recorded
last error by the remediation hint. -/
def retryGo (ex : Nat → Method → ExecTriple) (fb : List Method) (backoff : ℚ)
    (maxRetries : Nat) : Nat → Nat → String → RetryOutcome
  | 0, _, lastError => ⟨⟨false, "", failedMsg maxRetries lastError⟩, [], []⟩
  | fuel + 1, attempt, _ =>
    let sleepsHere : List ℚ := if attempt = 0 then [] else [backoff * 2 ^ (attempt - 1)]
    let current := fb.getD (min attempt (fb.length - 1)) .stdin
    let r := ex attempt current
    if r.success then ⟨r, sleepsHere, [current]⟩
    else if nodeErrSig r.stderr && attempt == maxRetries - 1 then
      ⟨⟨false, "", failedMsg maxRetries (nodeHint r.stderr)⟩, sleepsHere, [current]⟩
    else
      let rest := retryGo ex fb backoff maxRetries fuel (attempt + 1) r.stderr
      ⟨rest.result, sleepsHere ++ rest.sleeps, current :: rest.tried⟩

/-- `CLICommunicator.execute_with_retry` with preferred method `m`. -/
def executeWithRetry (ex : Nat → Method → ExecTriple) (maxRetries : Nat)
    (backoff : ℚ) (m : Method) : RetryOutcome :=
  retryGo ex (fallbackMethods m) backoff maxRetries maxRetries 0 ""

/-- The method used on attempt `i` for preferred method `m`. -/
def methodAt (m : Method) (i : Nat) : Method :=
  (fallbackMethods m).getD (min i ((fallbackMethods m).length - 1)) .stdin

/-- Expected sleeps for attempts `attempt, attempt+1, …` over `fuel` further
attempts: nothing before attempt 0, `backoff * 2 ^ (i - 1)` before attempt
`i > 0`. -/
def specSleeps (backoff : ℚ) : Nat → Nat → List ℚ
  | _, 0 => []
  | attempt, fuel + 1 =>
    (if attempt = 0 then [] else [backoff * 2 ^ (attempt - 1)]) ++
      specSleeps backoff (attempt + 1) fuel

/-- Expected methods for attempts `attempt, attempt+1, …` over `fuel`
further attempts, for an explicit fallback list. -/
def specTriedFB (fb : List Method) : Nat → Nat → List Method
  | _, 0 => []
  | attempt, fuel + 1 =>
    fb.getD (min attempt (fb.length - 1)) .stdin :: specTriedFB fb (attempt + 1) fuel

/-- Expected methods for attempts `attempt, attempt+1, …` over `fuel`
further attempts, for preferred method `m`. -/
def specTried (m : Method) : Nat → Nat → List Method :=
  specTriedFB (fallbackMethods m)

/-- The last error recorded after all `n` attempts failed, for an explicit
fallback list: the stderr of the final attempt, replaced by the remediation
hint when it matches the Node.js signature. -/
def specLastErrorFB (ex : Nat → Method → ExecTriple) (fb : List Method)
    (n : Nat) : String :=
  let last := (ex (n - 1) (fb.getD (min (n - 1) (fb.length - 1)) .stdin)).stderr
  if nodeErrSig last then nodeHint last else last

/-- The last error recorded after all `n` attempts failed with preferred
method `m`. -/
def specLastError (ex : Nat → Method → ExecTriple) (m : Method) (n : Nat) : String :=
  specLastErrorFB ex (fallbackMethods m) n

/-! ## Workspace tracking (`execute_in_workspace`, `_get_modified_files`)

A directory scan (`Path.rglob` restricted to regular files whose `stat`
succeeds) is modelled as a list of `(path, mtime)` pairs in discovery
order. -/

/-- One recursive scan of the workspace: regular files in discovery order
with their modification times. -/
abbrev FileState := List (String × ℚ)

/-- `CLICommunicator._get_modified_files`: walk the post-run scan in
discovery order and keep a path when it is absent from the pre-run snapshot
or its modification time strictly increased. -/
def getModifiedFiles (post : FileState) (initial : FileState) : List String :=
  post.filterMap fun pm =>
    match initial.lookup pm.1 with
    | none => some pm.1
    | some m0 => if m0 < pm.2 then some pm.1 else none

/-- `CLICommunicator.execute_in_workspace`: snapshot the directory, run
`execute_with_prompt`, re-scan, and report the modified files.  `preFS` and
`postFS` are the scans before and after the run. -/
def executeInWorkspace (env : Env) (preFS postFS : FileState) (m : Method)
    (t : Nat) : ExecTriple × List String :=
  let initial := preFS
  let r := executeWithPrompt env m t
  (r, getModifiedFiles postFS initial)

/-! ## Circuit breaker (src/orchestrator/retry.py) -/

/-- The three circuit-breaker states. -/
inductive CBStatus where
  | closed
  | opened
  | halfOpen
deriving DecidableEq, Repr

/-- Configuration of a `CircuitBreaker` instance. -/
structure CircuitBreaker where
  failureThreshold : Nat
  recoveryTimeout : ℚ
deriving DecidableEq, Repr

/-- The mutable fields of a `CircuitBreaker` instance. -/
structure CBState where
  failureCount : Nat
  lastFailureTime : Option ℚ
  status : CBStatus
deriving DecidableEq, Repr

/-- The state a `CircuitBreaker` is constructed with. -/
def initialCBState : CBState := ⟨0, none, .closed⟩

/-- `CircuitBreaker._should_attempt_reset`. -/
def shouldAttemptReset (cb : CircuitBreaker) (s : CBState) (now : ℚ) : Bool :=
  match s.lastFailureTime with
  | none => true
  | some tf => decide (cb.recoveryTimeout ≤ now - tf)

/-- `CircuitBreaker._on_success`: reset the failure count and close. -/
def onSuccess (s : CBState) : CBState :=
  { s with failureCount := 0, status := .closed }

/-- `CircuitBreaker._on_failure`: count the failure, stamp the time, and
move to the open state when the threshold is reached. -/
def onFailure (cb : CircuitBreaker) (s : CBState) (now : ℚ) : CBState :=
  let fc := s.failureCount + 1
  { failureCount := fc, lastFailureTime := some now,
    status := if cb.failureThreshold ≤ fc then .opened else s.status }

/-- How the wrapped callable behaved (`true`: returned; `false`: raised the
expected exception type). -/
abbrev FuncOk := Bool

/-- What `CircuitBreaker.call` did: rejected without invoking the wrapped
function, or invoked it and propagated its success or failure. -/
inductive CallOutcome where
  | rejected
  | succeeded
  | failed
deriving DecidableEq, Repr

/-- `CircuitBreaker.call` at time `now`, where `funcOk` is the behaviour the
wrapped function would have if invoked: in the open state before the
recovery timeout, raise without invoking it; otherwise (moving through
half-open when due) invoke it and apply `_on_success` or `_on_failure`. -/
def CircuitBreaker.call (cb : CircuitBreaker) (s : CBState) (now : ℚ)
    (funcOk : FuncOk) : CallOutcome × CBState :=
  match s.status with
  | .opened =>
    if shouldAttemptReset cb s now then
      let s1 := { s with status := CBStatus.halfOpen }
      if funcOk then (.succeeded, onSuccess s1) else (.failed, onFailure cb s1 now)
    else (.rejected, s)
  | _ => if funcOk then (.succeeded, onSuccess s) else (.failed, onFailure cb s now)

/-- States a breaker can be in between calls, starting from construction. -/
inductive CBReachable (cb : CircuitBreaker) : CBState → Prop where
  | init : CBReachable cb initialCBState
  | step (s : CBState) (now : ℚ) (funcOk : FuncOk) :
      CBReachable cb s → CBReachable cb (cb.call s now funcOk).2

/-! ## Token-bucket rate limiter (src/orchestrator/security.py) -/

/-- Configuration of a `TokenBucketRateLimiter` (capacity already resolved:
the constructor defaults it to `rate`). -/
structure TokenBucketRateLimiter where
  rate : ℚ
  window : ℚ
  capacity : ℚ
deriving DecidableEq, Repr

/-- One per-key bucket: current tokens and the last refill instant. -/
structure Bucket where
  tokens : ℚ
  lastUpdate : ℚ
deriving DecidableEq, Repr

/-- The lazily grown per-key bucket map, in insertion order. -/
abbrev Buckets := List (String × Bucket)

/-- `TokenBucketRateLimiter._get_bucket`: return the bucket for `key`,
creating a full one stamped `now` when absent. -/
def getBucket (cfg : TokenBucketRateLimiter) (bs : Buckets) (key : String)
    (now : ℚ) : Bucket × Buckets :=
  match bs.lookup key with
  | some b => (b, bs)
  | none =>
    let b : Bucket := ⟨cfg.capacity, now⟩
    (b, bs ++ [(key, b)])

/-- Store `b` as the bucket of `key` (the key is already present). -/
def setBucket (bs : Buckets) (key : String) (b : Bucket) : Buckets :=
  bs.map fun kv => if kv.1 == key then (key, b) else kv

/-- `TokenBucketRateLimiter._refill_bucket`: accrue
`(elapsed / window) * rate` tokens since the last update, capped at the
capacity, and stamp the refill time. -/
def refillBucket (cfg : TokenBucketRateLimiter) (b : Bucket) (now : ℚ) : Bucket :=
  ⟨min cfg.capacity (b.tokens + (now - b.lastUpdate) / cfg.window * cfg.rate), now⟩

/-- The payload of a `RateLimitError` raised by `check_limit`. -/
structure RateLimitErrorData where
  limit : ℚ
  window : ℚ
  key : String
  tokensAvailable : ℚ
deriving DecidableEq, Repr

/-- `TokenBucketRateLimiter.check_limit` at instant `now`: fetch-or-create
the bucket, refill it, and either debit `tokens` and return `true`, or raise
`RateLimitError` carrying the (undebited) available tokens. -/
def checkLimit (cfg : TokenBucketRateLimiter) (bs : Buckets) (key : String)
    (tokens : Nat) (now : ℚ) : (Bool ⊕ RateLimitErrorData) × Buckets :=
  let gb := getBucket cfg bs key now
  let rb := refillBucket cfg gb.1 now
  if (tokens : ℚ) ≤ rb.tokens then
    (.inl true, setBucket gb.2 key ⟨rb.tokens - tokens, rb.lastUpdate⟩)
  else
    (.inr ⟨cfg.rate, cfg.window, key, rb.tokens⟩, setBucket gb.2 key rb)

/-! ## Agent responses (src/adapters/base.py) -/

/-- The `AgentResponse` dataclass as declared: the three container fields
default to `None` and may be passed as `None`. -/
structure AgentResponseFields where
  success : Bool
  output : String
  error : Option String
  filesModified : Option (List String)
  suggestions : Option (List String)
  metadata : Option (List (String × String))
deriving DecidableEq, Repr

/-- An `AgentResponse` after `__post_init__`: the container fields are
plain containers. -/
structure AgentResponse where
  success : Bool
  output : String
  error : Option String
  filesModified : List String
  suggestions : List String
  metadata : List (String × String)
deriving DecidableEq, Repr

/-- `AgentResponse.__post_init__`: replace a `None` container by the empty
one.  Dataclass construction always runs this, so `postInit` composed with
the raw fields is the only way the rest of the code obtains a response. -/
def postInit (r : AgentResponseFields) : AgentResponse :=
  ⟨r.success, r.output, r.error,
    match r.filesModified with
    | none => []
    | some fs => fs,
    match r.suggestions with
    | none => []
    | some sg => sg,
    match r.metadata with
    | none => []
    | some md => md⟩

/-- Constructing an `AgentResponse(…)` in Python: raw fields followed by
`__post_init__`. -/
def mkAgentResponse (success : Bool) (output : String) (error : Option String)
    (filesModified : Option (List String)) (suggestions : Option (List String))
    (metadata : Option (List (String × String))) : AgentResponse :=
  postInit ⟨success, output, error, filesModified, suggestions, metadata⟩

/-! ## Workflow engine and orchestrator (src/orchestrator/workflow.py, core.py)

Invoking one step against its external agent either yields a response or
raises; `StepExec` is that oracle outcome. -/

/-- Outcome of `step.execute(context)` for one step invocation. -/
inductive StepExec where
  | ok (r : AgentResponse)
  | throws (msg : String)
deriving DecidableEq, Repr

/-- `WorkflowEngine.execute`: run the steps in order; a step that raises is
converted in place into `AgentResponse(success=False, output="",
error=str(e))` and the remaining steps still run. -/
def engineExecute (outcomes : List StepExec) : List AgentResponse :=
  match outcomes with
  | [] => []
  | .ok r :: rest => r :: engineExecute rest
  | .throws m :: rest =>
      mkAgentResponse false "" (some m) none none none :: engineExecute rest

/-- One step entry of an iteration record, as stored by
`Orchestrator._execute_workflow_iteration`.  A synthetic failure entry has
no output and no suggestions (consumers read those keys with `.get`
defaults, giving `none` and `[]`). -/
structure StepRecord where
  agent : String
  task : String
  success : Bool
  output : Option String
  error : Option String
  filesModified : List String
  suggestions : List String
deriving DecidableEq, Repr

/-- The record of one workflow iteration: per-step entries plus the output
of the last step that did not raise. -/
structure IterationRecord where
  steps : List StepRecord
  finalOutput : Option String
deriving DecidableEq, Repr

/-- The step loop of `Orchestrator._execute_workflow_iteration`: `run i` is
what step `i` does; a raising step is recorded as a synthetic failed entry
and does not update the final output. -/
def iterSteps (run : Nat → StepExec) :
    List (String × String) → Nat → Option String → List StepRecord × Option String
  | [], _, fin => ([], fin)
  | at_ :: rest, i, fin =>
    match run i with
    | .ok r =>
      let tail := iterSteps run rest (i + 1) (some r.output)
      (⟨at_.1, at_.2, r.success, some r.output, r.error,
        r.filesModified, r.suggestions⟩ :: tail.1, tail.2)
    | .throws m =>
      let tail := iterSteps run rest (i + 1) fin
      (⟨at_.1, at_.2, false, none, some m, [], []⟩ :: tail.1, tail.2)

/-- `Orchestrator._execute_workflow_iteration` over the step configuration
list (agent name, task type). -/
def executeWorkflowIteration (cfgs : List (String × String))
    (run : Nat → StepExec) : IterationRecord :=
  let r := iterSteps run cfgs 0 none
  ⟨r.1, r.2⟩

/-- `Orchestrator._should_stop_iteration`: every step succeeded and no step
of task type `review` reported more than 3 suggestions. -/
def shouldStopIteration (ir : IterationRecord) : Bool :=
  ir.steps.all (·.success) &&
    ir.steps.all fun s => !(s.task == "review" && decide (3 < s.suggestions.length))

/-- The aggregate result dictionary of `Orchestrator.execute_task`. -/
structure OrchResult where
  iterations : List IterationRecord
  finalOutput : Option String
  success : Bool
deriving DecidableEq, Repr

/-- The iteration loop of `execute_task`: run up to `fuel` more iterations
starting at index `i`; stop with success as soon as an iteration satisfies
the stop predicate. -/
def orchGo (cfgs : List (String × String)) (run : Nat → Nat → StepExec) :
    Nat → Nat → List IterationRecord × Bool
  | _, 0 => ([], false)
  | i, fuel + 1 =>
    let itr := executeWorkflowIteration cfgs (run i)
    if shouldStopIteration itr then ([itr], true)
    else
      let rest := orchGo cfgs run (i + 1) fuel
      (itr :: rest.1, rest.2)

/-- The body of `execute_task` after workflow resolution: the bounded
iteration loop plus the final-output extraction from the last iteration. -/
def executeTaskLoop (cfgs : List (String × String)) (run : Nat → Nat → StepExec)
    (maxIterations : Nat) : OrchResult :=
  let r := orchGo cfgs run 0 maxIterations
  ⟨r.1, r.1.getLast?.bind (·.finalOutput), r.2⟩

/-- The `ValueError` message of `execute_task` for a missing (or empty,
hence falsy) workflow configuration. -/
def workflowNotFoundMsg (name : String) : String :=
  "Workflow \x27" ++ name ++ "\x27 not found"

/-- `Orchestrator.execute_task`: resolve the named workflow (raising
`ValueError` when absent or empty), drop steps whose agent adapter is not
available, and run the iteration loop.  `run i j` is what step `j` of
iteration `i` does. -/
def executeTask (workflows : String → Option (List (String × String)))
    (availableAgents : List String) (run : Nat → Nat → StepExec)
    (name : String) (maxIterations : Nat) : Except String OrchResult :=
  match workflows name with
  | none => .error (workflowNotFoundMsg name)
  | some cfg =>
    if cfg.isEmpty then .error (workflowNotFoundMsg name)
    else
      let steps := cfg.filter fun st => availableAgents.contains st.1
      .ok (executeTaskLoop steps run maxIterations)

/-! ## Concrete inputs used by witnesses and counterexamples -/

/-- An environment in which the pseudo-terminal `script` pipeline exceeds
the timeout while a plain argument-strategy spawn would succeed. -/
def envStdinTimesOut : Env :=
  { scriptSpawn := .timedOut "" ""
    fileSpawn := .done 0 "out" ""
    argSpawn := .done 0 "ok" ""
    heredocSpawn := .done 0 "out" ""
    scriptSetupOk := true
    scriptOutputRead := none
    fileOutputRead := none
    heredocCmdRepr := "[\x27bash\x27, \x27-c\x27, …]" }

/-- An environment in which every spawn exceeds the timeout. -/
def envAllTimeout : Env :=
  { scriptSpawn := .timedOut "" ""
    fileSpawn := .timedOut "" ""
    argSpawn := .timedOut "" ""
    heredocSpawn := .timedOut "" ""
    scriptSetupOk := true
    scriptOutputRead := none
    fileOutputRead := none
    heredocCmdRepr := "[\x27bash\x27, \x27-c\x27, …]" }

/-- An attempt oracle that always fails with stderr `boom`. -/
def exFail : Nat → Method → ExecTriple := fun _ _ => ⟨false, "", "boom"⟩

/-- A circuit breaker with failure threshold 2 and recovery timeout 60. -/
def cbDemo : CircuitBreaker := ⟨2, 60⟩

/-- The breaker state after two consecutive failures at times 0 and 1. -/
def cbAfterTwoFailures : CBState :=
  (cbDemo.call (cbDemo.call initialCBState 0 false).2 1 false).2

/-- The rate limiter of the specified scenario:
`TokenBucketRateLimiter(rate=2, window=60, capacity=2)`. -/
def rlDemo : TokenBucketRateLimiter := ⟨2, 60, 2⟩

/-- A step oracle whose steps always succeed with no suggestions. -/
def runAllGood : Nat → Nat → StepExec :=
  fun _ _ => .ok ⟨true, "done", none, [], [], []⟩

/-- A step oracle whose steps always succeed but report 5 suggestions. -/
def runFiveSuggestions : Nat → Nat → StepExec :=
  fun _ _ => .ok ⟨true, "done", none, [], ["s1", "s2", "s3", "s4", "s5"], []⟩

/-- A workflow table with a single workflow `default` made of one review
step bound to agent `gemini`. -/
def wfDemo : String → Option (List (String × String)) :=
  fun nm => if nm == "default" then some [("gemini", "review")] else none

/-- The iteration records the orchestrator loop produces for iterations
`start, start+1, …` over `fuel` further iterations. -/
def specIters (cfgs : List (String × String)) (run : Nat → Nat → StepExec) :
    Nat → Nat → List IterationRecord
  | _, 0 => []
  | start, fuel + 1 =>
    executeWorkflowIteration cfgs (run start) :: specIters cfgs run (start + 1) fuel

/-! ## Helper lemmas -/

theorem charsStart_append (p r : List Char) : charsStart p (p ++ r) = true := by
  induction p with
  | nil => rfl
  | cons c cs ih => simp [charsStart, ih]

theorem charsHave_append (p r : List Char) : charsHave p (p ++ r) = true := by
  cases p with
  | nil =>
    cases r with
    | nil => rfl
    | cons c cs => simp [charsHave, charsStart]
  | cons c cs =>
    have h := charsStart_append (c :: cs) r
    simp only [List.cons_append] at h
    simp [charsHave, h]

/-- A string that starts with `pre` contains `pre`. -/
theorem strHas_of_append (pre suf : String) : strHas (pre ++ suf) pre = true := by
  unfold strHas
  rw [String.data_append]
  exact charsHave_append _ _

/-! ## C9: AgentResponse container normalization -/

/-- C9: every `AgentResponse`, as constructed (the dataclass always runs
`__post_init__`), has plain-container `files_modified`, `suggestions` and
`metadata`: a `None` argument is replaced by the empty list (empty dict for
metadata), and a given container is kept as passed, so consumers may take
lengths or iterate without a `None` check. -/
theorem C9_agent_response_containers (success : Bool) (output : String)
    (error : Option String) (fm sg : Option (List String))
    (md : Option (List (String × String))) :
    (mkAgentResponse success output error fm sg md).filesModified = fm.getD [] ∧
    (mkAgentResponse success output error fm sg md).suggestions = sg.getD [] ∧
    (mkAgentResponse success output error fm sg md).metadata = md.getD [] ∧
    (mkAgentResponse success output error none none none).filesModified = [] ∧
    (mkAgentResponse success output error none none none).suggestions = [] ∧
    (mkAgentResponse success output error none none none).metadata = [] := by
  cases fm <;> cases sg <;> cases md <;> exact ⟨rfl, rfl, rfl, rfl, rfl, rfl⟩

/-! ## C8: step exceptions are isolated inside a pass -/

theorem engineExecute_length (outcomes : List StepExec) :
    (engineExecute outcomes).length = outcomes.length := by
  induction outcomes with
  | nil => rfl
  | cons o rest ih => cases o <;> simp [engineExecute, ih]

theorem engineExecute_throws (outcomes : List StepExec) (i : Nat) (m : String)
    (h : outcomes[i]? = some (StepExec.throws m)) :
    (engineExecute outcomes)[i]? =
      some (mkAgentResponse false "" (some m) none none none) := by
  induction outcomes generalizing i with
  | nil => simp at h
  | cons o rest ih =>
    cases i with
    | zero =>
      cases o with
      | ok r => simp at h
      | throws m0 =>
        simp only [List.getElem?_cons_zero, Option.some.injEq,
          StepExec.throws.injEq] at h
        subst h
        simp [engineExecute]
    | succ j => cases o <;> simpa [engineExecute] using ih j (by simpa using h)

theorem engineExecute_ok (outcomes : List StepExec) (i : Nat) (r : AgentResponse)
    (h : outcomes[i]? = some (StepExec.ok r)) :
    (engineExecute outcomes)[i]? = some r := by
  induction outcomes generalizing i with
  | nil => simp at h
  | cons o rest ih =>
    cases i with
    | zero =>
      cases o with
      | ok r0 =>
        simp only [List.getElem?_cons_zero, Option.some.injEq,
          StepExec.ok.injEq] at h
        subst h
        simp [engineExecute]
      | throws m0 => simp at h
    | succ j => cases o <;> simpa [engineExecute] using ih j (by simpa using h)

/-- C8: a step whose `execute` raises during a pass does not abort the pass:
`WorkflowEngine.execute` records the synthetic failed response
(`success=False`, the exception text as `error`) at that step position,
every remaining step still runs, and the pass returns exactly one entry per
step. -/
theorem C8_step_exception_isolated (outcomes : List StepExec) :
    (engineExecute outcomes).length = outcomes.length ∧
    (∀ (i : Nat) (m : String), outcomes[i]? = some (StepExec.throws m) →
      (engineExecute outcomes)[i]? =
        some (mkAgentResponse false "" (some m) none none none)) ∧
    (∀ (i : Nat) (r : AgentResponse), outcomes[i]? = some (StepExec.ok r) →
      (engineExecute outcomes)[i]? = some r) ∧
    (∀ m, (mkAgentResponse false "" (some m) none none none).success = false ∧
      (mkAgentResponse false "" (some m) none none none).error = some m) :=
  ⟨engineExecute_length outcomes,
    fun i m h => engineExecute_throws outcomes i m h,
    fun i r h => engineExecute_ok outcomes i r h,
    fun _ => ⟨rfl, rfl⟩⟩

/-- C8 witness: with outcomes `[ok, throws, ok]` the failed second step is
recorded in place and the third step still runs. -/
theorem C8_witness :
    (engineExecute [.ok ⟨true, "a", none, [], [], []⟩, .throws "boom",
      .ok ⟨true, "c", none, [], [], []⟩])[1]? =
        some (mkAgentResponse false "" (some "boom") none none none) ∧
    (engineExecute [.ok ⟨true, "a", none, [], [], []⟩, .throws "boom",
      .ok ⟨true, "c", none, [], [], []⟩])[2]? =
        some ⟨true, "c", none, [], [], []⟩ :=
  ⟨(C8_step_exception_isolated _).2.1 1 "boom" rfl,
    (C8_step_exception_isolated _).2.2.1 2 ⟨true, "c", none, [], [], []⟩ rfl⟩

/-! ## C1: timeout behaviour of execute_with_prompt -/

/-- C1 (amended): on a spawn that exceeds the timeout, the arg strategy
returns failure with the `Timeout after <t>s` tag prepended to stderr and
the file strategy returns failure with the bare tag; but the stdin strategy
falls back to the arg strategy (its `TimeoutExpired` is swallowed by the
generic script-failure handler), and the heredoc strategy returns failure
whose stderr is `str(TimeoutExpired)`, which does not carry the tag. -/
theorem C1_timeout_behaviour (env : Env) (t : Nat) :
    (∀ ks ke, env.argSpawn = .timedOut ks ke →
      executeWithPrompt env .arg t = ⟨false, ks, timeoutTag t ++ "\n" ++ ke⟩ ∧
      strHas (executeWithPrompt env .arg t).stderr (timeoutTag t) = true) ∧
    (∀ ks ke, env.fileSpawn = .timedOut ks ke →
      executeWithPrompt env .file t = ⟨false, "", timeoutTag t⟩ ∧
      strHas (executeWithPrompt env .file t).stderr (timeoutTag t) = true) ∧
    (∀ ks ke, env.scriptSpawn = .timedOut ks ke →
      executeWithPrompt env .stdin t = executeArgument env t) ∧
    (∀ ks ke, env.heredocSpawn = .timedOut ks ke →
      executeWithPrompt env .heredoc t =
        ⟨false, "", pyTimeoutExpiredStr env.heredocCmdRepr t⟩) := by
  refine ⟨?_, ?_, ?_, ?_⟩
  · intro ks ke h
    have he : executeWithPrompt env .arg t = ⟨false, ks, timeoutTag t ++ "\n" ++ ke⟩ := by
      simp [executeWithPrompt, executeArgument, h]
    refine ⟨he, ?_⟩
    rw [he]
    have : timeoutTag t ++ "\n" ++ ke = timeoutTag t ++ ("\n" ++ ke) := by
      simp [String.append_assoc]
    simpa [this] using strHas_of_append (timeoutTag t) ("\n" ++ ke)
  · intro ks ke h
    have he : executeWithPrompt env .file t = ⟨false, "", timeoutTag t⟩ := by
      simp [executeWithPrompt, executeFileBased, h]
    refine ⟨he, ?_⟩
    rw [he]
    simpa using strHas_of_append (timeoutTag t) ""
  · intro ks ke h
    simp [executeWithPrompt, executeStdin, h]
  · intro ks ke h
    simp [executeWithPrompt, executeHeredoc, h]

/-- C1 counterexample: with the pseudo-terminal pipeline exceeding the
timeout but a plain argument spawn succeeding, the stdin strategy returns
`success=True` — not a timeout-tagged failure — because the timeout was
swallowed and another strategy was tried. -/
theorem C1_counterexample :
    envStdinTimesOut.scriptSpawn = .timedOut "" "" ∧
    executeWithPrompt envStdinTimesOut .stdin 1 = ⟨true, "ok", ""⟩ :=
  ⟨rfl, rfl⟩

/-- C1 witness: under an all-timeout environment the arg strategy returns
failure carrying the timeout tag. -/
theorem C1_witness :
    executeWithPrompt envAllTimeout .arg 1 = ⟨false, "", timeoutTag 1 ++ "\n" ++ ""⟩ ∧
    strHas (executeWithPrompt envAllTimeout .arg 1).stderr (timeoutTag 1) = true :=
  (C1_timeout_behaviour envAllTimeout 1).1 "" "" rfl

/-! ## C3: circuit breaker transitions -/

theorem call_notOpened_true (cb : CircuitBreaker) (s : CBState) (now : ℚ)
    (hs : s.status ≠ .opened) :
    cb.call s now true = (.succeeded, ⟨0, s.lastFailureTime, .closed⟩) := by
  unfold CircuitBreaker.call
  cases h : s.status with
  | opened => exact absurd h hs
  | closed => simp [onSuccess]
  | halfOpen => simp [onSuccess]

theorem call_notOpened_false (cb : CircuitBreaker) (s : CBState) (now : ℚ)
    (hs : s.status ≠ .opened) :
    cb.call s now false = (.failed, ⟨s.failureCount + 1, some now,
      if cb.failureThreshold ≤ s.failureCount + 1 then .opened else s.status⟩) := by
  unfold CircuitBreaker.call
  cases h : s.status with
  | opened => exact absurd h hs
  | closed =>
    simp only [onFailure]
    rw [h]
    simp
  | halfOpen =>
    simp only [onFailure]
    rw [h]
    simp

theorem call_opened_notDue (cb : CircuitBreaker) (s : CBState) (now : ℚ)
    (funcOk : FuncOk) (hs : s.status = .opened)
    (hr : shouldAttemptReset cb s now = false) :
    cb.call s now funcOk = (.rejected, s) := by
  simp [CircuitBreaker.call, hs, hr]

theorem call_opened_due_true (cb : CircuitBreaker) (s : CBState) (now : ℚ)
    (hs : s.status = .opened) (hr : shouldAttemptReset cb s now = true) :
    cb.call s now true = (.succeeded, ⟨0, s.lastFailureTime, .closed⟩) := by
  simp [CircuitBreaker.call, hs, hr, onSuccess]

theorem call_opened_due_false (cb : CircuitBreaker) (s : CBState) (now : ℚ)
    (hs : s.status = .opened) (hr : shouldAttemptReset cb s now = true) :
    cb.call s now false = (.failed, ⟨s.failureCount + 1, some now,
      if cb.failureThreshold ≤ s.failureCount + 1 then .opened else .halfOpen⟩) := by
  simp [CircuitBreaker.call, hs, hr, onFailure]

/-- Between calls, a reachable breaker is never resting in `half_open`, and
whenever it is `open` its failure count has reached the threshold. -/
theorem cb_reachable_invariant (cb : CircuitBreaker) (s : CBState)
    (h : CBReachable cb s) :
    (s.status = .opened → cb.failureThreshold ≤ s.failureCount) ∧
      s.status ≠ .halfOpen := by
  induction h with
  | init => simp [initialCBState]
  | step s now funcOk _ ih =>
    obtain ⟨hopen, hhalf⟩ := ih
    cases hst : s.status with
    | halfOpen => exact absurd hst hhalf
    | closed =>
      cases funcOk with
      | true =>
        rw [call_notOpened_true cb s now (by rw [hst]; intro hc; cases hc)]
        simp
      | false =>
        rw [call_notOpened_false cb s now (by rw [hst]; intro hc; cases hc), hst]
        by_cases hc : cb.failureThreshold ≤ s.failureCount + 1
        · simpa [hc] using hc
        · simp [hc]
    | opened =>
      by_cases hr : shouldAttemptReset cb s now
      · cases funcOk with
        | true =>
          rw [call_opened_due_true cb s now hst hr]
          simp
        | false =>
          have hle : cb.failureThreshold ≤ s.failureCount + 1 :=
            Nat.le_succ_of_le (hopen hst)
          rw [call_opened_due_false cb s now hst hr]
          simpa [hle] using hle
      · rw [call_opened_notDue cb s now funcOk hst (by simpa using hr)]
        exact ⟨hopen, hhalf⟩

/-- C3: the only transitions `CircuitBreaker.call` performs from a reachable
state are: closed to open when the failure count reaches the threshold
(closed otherwise, with the count incremented); open rejects immediately —
without invoking the wrapped function and without changing state — while
the recovery timeout has not elapsed; once it has elapsed the one trial call
moves, through half-open, to closed on success and back to open on failure;
every successful call resets the failure count to 0 and closes the breaker;
and the breaker never rests in the half-open state. -/
theorem C3_circuit_breaker (cb : CircuitBreaker) (s : CBState)
    (hf : 1 ≤ cb.failureThreshold) (h : CBReachable cb s) (now : ℚ) :
    (s.status = .closed →
      cb.call s now true = (.succeeded, ⟨0, s.lastFailureTime, .closed⟩) ∧
      cb.call s now false = (.failed, ⟨s.failureCount + 1, some now,
        if cb.failureThreshold ≤ s.failureCount + 1 then .opened else .closed⟩)) ∧
    (∀ funcOk, s.status = .opened → shouldAttemptReset cb s now = false →
      cb.call s now funcOk = (.rejected, s)) ∧
    (s.status = .opened → shouldAttemptReset cb s now = true →
      cb.call s now true = (.succeeded, ⟨0, s.lastFailureTime, .closed⟩) ∧
      cb.call s now false = (.failed, ⟨s.failureCount + 1, some now, .opened⟩)) ∧
    (∀ funcOk, (cb.call s now funcOk).1 = .succeeded →
      (cb.call s now funcOk).2.failureCount = 0 ∧
      (cb.call s now funcOk).2.status = .closed) ∧
    s.status ≠ .halfOpen ∧
    (∀ funcOk, (cb.call s now funcOk).2.status ≠ .halfOpen) := by
  refine ⟨?_, ?_, ?_, ?_, (cb_reachable_invariant cb s h).2, ?_⟩
  · intro hs
    have hne : s.status ≠ .opened := by rw [hs]; intro hc; cases hc
    refine ⟨call_notOpened_true cb s now hne, ?_⟩
    rw [call_notOpened_false cb s now hne, hs]
  · intro funcOk hs hr
    exact call_opened_notDue cb s now funcOk hs hr
  · intro hs hr
    refine ⟨call_opened_due_true cb s now hs hr, ?_⟩
    have hle : cb.failureThreshold ≤ s.failureCount + 1 :=
      Nat.le_succ_of_le ((cb_reachable_invariant cb s h).1 hs)
    rw [call_opened_due_false cb s now hs hr, if_pos hle]
  · intro funcOk hsu
    cases hst : s.status with
    | opened =>
      by_cases hr : shouldAttemptReset cb s now
      · cases funcOk with
        | true => rw [call_opened_due_true cb s now hst hr]; exact ⟨rfl, rfl⟩
        | false =>
          rw [call_opened_due_false cb s now hst hr] at hsu
          cases hsu
      · rw [call_opened_notDue cb s now funcOk hst (by simpa using hr)] at hsu
        cases hsu
    | closed =>
      have hne : s.status ≠ .opened := by rw [hst]; intro hc; cases hc
      cases funcOk with
      | true => rw [call_notOpened_true cb s now hne]; exact ⟨rfl, rfl⟩
      | false =>
        rw [call_notOpened_false cb s now hne] at hsu
        cases hsu
    | halfOpen =>
      have hne : s.status ≠ .opened := by rw [hst]; intro hc; cases hc
      cases funcOk with
      | true => rw [call_notOpened_true cb s now hne]; exact ⟨rfl, rfl⟩
      | false =>
        rw [call_notOpened_false cb s now hne] at hsu
        cases hsu
  · intro funcOk
    exact (cb_reachable_invariant cb _ (CBReachable.step s now funcOk h)).2

theorem cbAfterTwoFailures_eq : cbAfterTwoFailures = ⟨2, some 1, .opened⟩ := by
  unfold cbAfterTwoFailures cbDemo initialCBState
  norm_num [CircuitBreaker.call, onFailure]

theorem cb_demo_reset30 : shouldAttemptReset cbDemo ⟨2, some 1, .opened⟩ 30 = false := by
  norm_num [shouldAttemptReset, cbDemo]

theorem cb_demo_reset70 : shouldAttemptReset cbDemo ⟨2, some 1, .opened⟩ 70 = true := by
  norm_num [shouldAttemptReset, cbDemo]

/-- C3 witness: with threshold 2, after two failures the breaker is open and
a call before the recovery timeout is rejected with the state unchanged;
after the timeout a successful trial call closes the breaker and resets the
count. -/
theorem C3_witness :
    cbAfterTwoFailures.status = .opened ∧
    cbDemo.call cbAfterTwoFailures 30 true = (.rejected, cbAfterTwoFailures) ∧
    cbDemo.call cbAfterTwoFailures 70 true = (.succeeded, ⟨0, some 1, .closed⟩) := by
  have hreach : CBReachable cbDemo cbAfterTwoFailures :=
    CBReachable.step _ 1 false (CBReachable.step _ 0 false CBReachable.init)
  have heq := cbAfterTwoFailures_eq
  refine ⟨by rw [heq], ?_, ?_⟩
  · exact (C3_circuit_breaker cbDemo cbAfterTwoFailures (by decide) hreach 30).2.1
      true (by rw [heq]) (by rw [heq]; exact cb_demo_reset30)
  · exact ((C3_circuit_breaker cbDemo cbAfterTwoFailures (by decide) hreach 70).2.2.1
      (by rw [heq]) (by rw [heq]; exact cb_demo_reset70)).1.trans (by rw [heq])

/-! ## C4, C10: token-bucket rate limiter -/

theorem lookup_append_right (bs l : Buckets) (key : String)
    (h : bs.lookup key = none) : (bs ++ l).lookup key = l.lookup key := by
  induction bs with
  | nil => rfl
  | cons kv rest ih =>
    rw [List.cons_append]
    cases kv with
    | mk k0 v0 =>
      simp only [List.lookup] at h ⊢
      cases hk : (key == k0) with
      | true => rw [hk] at h; exact Option.noConfusion h
      | false => rw [hk] at h; exact ih h

theorem getBucket_lookup (cfg : TokenBucketRateLimiter) (bs : Buckets)
    (key : String) (now : ℚ) :
    (getBucket cfg bs key now).2.lookup key = some (getBucket cfg bs key now).1 := by
  unfold getBucket
  cases h : bs.lookup key with
  | some b => simpa using h
  | none =>
    simp only
    rw [lookup_append_right bs _ key h]
    simp [List.lookup]

theorem setBucket_lookup (bs : Buckets) (key : String) (b : Bucket)
    (h : (bs.lookup key).isSome = true) :
    (setBucket bs key b).lookup key = some b := by
  induction bs with
  | nil => simp [List.lookup] at h
  | cons kv rest ih =>
    cases kv with
    | mk k0 v0 =>
      simp only [setBucket, List.map_cons] at ih ⊢
      by_cases hk : (k0 == key) = true
      · rw [if_pos hk]
        simp [List.lookup]
      · have hk' : (k0 == key) = false := by simpa using hk
        have hk2 : (key == k0) = false := by
          rw [beq_eq_false_iff_ne] at hk' ⊢
          exact fun hc => hk' hc.symm
        rw [if_neg hk]
        have hrest : (rest.lookup key).isSome = true := by
          simp only [List.lookup] at h
          rw [hk2] at h
          exact h
        simp only [List.lookup]
        rw [hk2]
        exact ih hrest

theorem checkLimit_spec (cfg : TokenBucketRateLimiter) (bs : Buckets)
    (key : String) (k : Nat) (now : ℚ) :
    ((k : ℚ) ≤ (refillBucket cfg (getBucket cfg bs key now).1 now).tokens →
      (checkLimit cfg bs key k now).1 = .inl true ∧
      (checkLimit cfg bs key k now).2.lookup key =
        some ⟨(refillBucket cfg (getBucket cfg bs key now).1 now).tokens - k, now⟩) ∧
    ((refillBucket cfg (getBucket cfg bs key now).1 now).tokens < (k : ℚ) →
      (checkLimit cfg bs key k now).1 =
        .inr ⟨cfg.rate, cfg.window, key,
          (refillBucket cfg (getBucket cfg bs key now).1 now).tokens⟩ ∧
      (checkLimit cfg bs key k now).2.lookup key =
        some (refillBucket cfg (getBucket cfg bs key now).1 now)) := by
  have hsome : ((getBucket cfg bs key now).2.lookup key).isSome = true := by
    rw [getBucket_lookup]
    rfl
  constructor
  · intro hle
    simp only [checkLimit]
    rw [if_pos hle]
    exact ⟨rfl, setBucket_lookup _ key _ hsome⟩
  · intro hlt
    simp only [checkLimit]
    rw [if_neg (not_le.mpr hlt)]
    refine ⟨rfl, ?_⟩
    have := setBucket_lookup (getBucket cfg bs key now).2 key
      (refillBucket cfg (getBucket cfg bs key now).1 now) hsome
    simpa using this

/-- C4: `check_limit` refills the bucket by `(elapsed / window) * rate`
capped at the capacity, debits the requested tokens and returns `True`
exactly when the refilled bucket holds at least that many, and otherwise
raises `RateLimitError` carrying the remaining `tokens_available`; with
`rate=2, window=60, capacity=2` two same-instant calls succeed and a third
raises. -/
theorem C4_rate_limiter (cfg : TokenBucketRateLimiter) (bs : Buckets)
    (key : String) (k : Nat) (now : ℚ) :
    (refillBucket cfg (getBucket cfg bs key now).1 now =
      ⟨min cfg.capacity ((getBucket cfg bs key now).1.tokens +
        (now - (getBucket cfg bs key now).1.lastUpdate) / cfg.window * cfg.rate),
        now⟩) ∧
    ((k : ℚ) ≤ (refillBucket cfg (getBucket cfg bs key now).1 now).tokens →
      (checkLimit cfg bs key k now).1 = .inl true ∧
      (checkLimit cfg bs key k now).2.lookup key =
        some ⟨(refillBucket cfg (getBucket cfg bs key now).1 now).tokens - k, now⟩) ∧
    ((refillBucket cfg (getBucket cfg bs key now).1 now).tokens < (k : ℚ) →
      (checkLimit cfg bs key k now).1 =
        .inr ⟨cfg.rate, cfg.window, key,
          (refillBucket cfg (getBucket cfg bs key now).1 now).tokens⟩) ∧
    (checkLimit rlDemo [] "k" 1 0).1 = .inl true ∧
    (checkLimit rlDemo (checkLimit rlDemo [] "k" 1 0).2 "k" 1 0).1 = .inl true ∧
    (checkLimit rlDemo
      (checkLimit rlDemo (checkLimit rlDemo [] "k" 1 0).2 "k" 1 0).2 "k" 1 0).1 =
      .inr ⟨2, 60, "k", 0⟩ := by
  have h1 : checkLimit rlDemo [] "k" 1 0 = (.inl true, [("k", ⟨1, 0⟩)]) := by
    simp only [checkLimit, getBucket, refillBucket, setBucket, rlDemo, List.lookup]
    norm_num
  have h2 : checkLimit rlDemo [("k", ⟨1, 0⟩)] "k" 1 0 = (.inl true, [("k", ⟨0, 0⟩)]) := by
    simp only [checkLimit, getBucket, refillBucket, setBucket, rlDemo, List.lookup]
    norm_num
  have h3 : checkLimit rlDemo [("k", ⟨0, 0⟩)] "k" 1 0 =
      (.inr ⟨2, 60, "k", 0⟩, [("k", ⟨0, 0⟩)]) := by
    simp only [checkLimit, getBucket, refillBucket, setBucket, rlDemo, List.lookup]
    norm_num
  refine ⟨rfl, (checkLimit_spec cfg bs key k now).1,
    fun hlt => ((checkLimit_spec cfg bs key k now).2 hlt).1, ?_, ?_, ?_⟩
  · rw [h1]
  · rw [h1, h2]
  · rw [h1, h2, h3]

/-- C4 witness: a fresh bucket of capacity 2 admits a single-token request
and stores the debited bucket. -/
theorem C4_witness :
    (checkLimit rlDemo [] "k" 1 0).1 = .inl true ∧
    (checkLimit rlDemo [] "k" 1 0).2.lookup "k" = some ⟨1, 0⟩ := by
  have h := (C4_rate_limiter rlDemo [] "k" 1 0).2.1 (by
    simp only [getBucket, refillBucket, rlDemo, List.lookup]
    norm_num)
  refine ⟨h.1, h.2.trans ?_⟩
  simp only [getBucket, refillBucket, rlDemo, List.lookup]
  norm_num

/-- C10: despite its declared `bool` return type, `check_limit` never
returns `False`: it either returns `True` (debiting the tokens) or raises
`RateLimitError`, and when it raises, no tokens are debited — the stored
bucket equals the refilled one and the error carries its token count. -/
theorem C10_check_limit_never_false (cfg : TokenBucketRateLimiter)
    (bs : Buckets) (key : String) (k : Nat) (now : ℚ) :
    (checkLimit cfg bs key k now).1 ≠ .inl false ∧
    (∀ e, (checkLimit cfg bs key k now).1 = .inr e →
      (checkLimit cfg bs key k now).2.lookup key =
        some (refillBucket cfg (getBucket cfg bs key now).1 now) ∧
      e.tokensAvailable = (refillBucket cfg (getBucket cfg bs key now).1 now).tokens) := by
  constructor
  · by_cases hle : (k : ℚ) ≤ (refillBucket cfg (getBucket cfg bs key now).1 now).tokens
    · rw [((checkLimit_spec cfg bs key k now).1 hle).1]
      intro hc
      cases hc
    · rw [((checkLimit_spec cfg bs key k now).2 (not_le.mp hle)).1]
      intro hc
      cases hc
  · intro e he
    by_cases hle : (k : ℚ) ≤ (refillBucket cfg (getBucket cfg bs key now).1 now).tokens
    · rw [((checkLimit_spec cfg bs key k now).1 hle).1] at he
      cases he
    · have hspec := (checkLimit_spec cfg bs key k now).2 (not_le.mp hle)
      rw [hspec.1] at he
      cases he
      exact ⟨hspec.2, rfl⟩

/-- C10 witness: on an empty bucket the call raises and the stored bucket is
the refilled, undebited one. -/
theorem C10_witness :
    (checkLimit rlDemo [("k", ⟨0, 0⟩)] "k" 1 0).2.lookup "k" = some ⟨0, 0⟩ ∧
    (checkLimit rlDemo [("k", ⟨0, 0⟩)] "k" 1 0).1 ≠ .inl false := by
  have h := (C10_check_limit_never_false rlDemo [("k", ⟨0, 0⟩)] "k" 1 0)
  refine ⟨?_, h.1⟩
  have h2 := (h.2 ⟨2, 60, "k", 0⟩ (by
    simp only [checkLimit, getBucket, refillBucket, setBucket, rlDemo, List.lookup]
    norm_num)).1
  refine h2.trans ?_
  simp only [getBucket, refillBucket, rlDemo, List.lookup]
  norm_num

/-! ## C5: workspace modified-file tracking -/

theorem getModifiedFiles_entry (initial : FileState) (pm : String × ℚ) (p : String) :
    (match initial.lookup pm.1 with
      | none => some pm.1
      | some m0 => if m0 < pm.2 then some pm.1 else none) = some p ↔
    (pm.1 = p ∧ (initial.lookup pm.1 = none ∨
      ∃ m0, initial.lookup pm.1 = some m0 ∧ m0 < pm.2)) := by
  cases h : initial.lookup pm.1 with
  | none => simp
  | some m0 =>
    by_cases hlt : m0 < pm.2
    · simp [hlt]
    · simp [hlt]

theorem getModifiedFiles_mem (post initial : FileState) (p : String) :
    p ∈ getModifiedFiles post initial ↔
      ∃ mt, (p, mt) ∈ post ∧ (initial.lookup p = none ∨
        ∃ m0, initial.lookup p = some m0 ∧ m0 < mt) := by
  unfold getModifiedFiles
  rw [List.mem_filterMap]
  constructor
  · rintro ⟨⟨q, mt⟩, hmem, hf⟩
    rw [getModifiedFiles_entry] at hf
    obtain ⟨hq, hcond⟩ := hf
    subst hq
    exact ⟨mt, hmem, hcond⟩
  · rintro ⟨mt, hmem, hcond⟩
    refine ⟨(p, mt), hmem, ?_⟩
    rw [getModifiedFiles_entry]
    exact ⟨rfl, hcond⟩

theorem getModifiedFiles_sublist (post initial : FileState) :
    (getModifiedFiles post initial).Sublist (post.map Prod.fst) := by
  induction post with
  | nil => simp [getModifiedFiles]
  | cons pm rest ih =>
    unfold getModifiedFiles at ih ⊢
    rw [List.filterMap_cons, List.map_cons]
    cases h : (match initial.lookup pm.1 with
      | none => some pm.1
      | some m0 => if m0 < pm.2 then some pm.1 else none) with
    | none => exact List.Sublist.cons _ ih
    | some q =>
      have hq : q = pm.1 := by
        rw [getModifiedFiles_entry] at h
        exact h.1.symm
      subst hq
      exact List.Sublist.cons₂ _ ih

theorem nodup_keys_mem_eq (l : FileState) (h : (l.map Prod.fst).Nodup)
    (p : String) (a b : ℚ) (ha : (p, a) ∈ l) (hb : (p, b) ∈ l) : a = b := by
  induction l with
  | nil => cases ha
  | cons x rest ih =>
    rw [List.map_cons, List.nodup_cons] at h
    cases ha with
    | head =>
      cases hb with
      | head => rfl
      | tail _ hb2 => exact absurd (List.mem_map_of_mem Prod.fst hb2) h.1
    | tail _ ha2 =>
      cases hb with
      | head => exact absurd (List.mem_map_of_mem Prod.fst ha2) h.1
      | tail _ hb2 => exact ih h.2 ha2 hb2

/-- C5: `modified_files` of `execute_in_workspace` contains exactly the
regular files present in the post-run scan that are absent from the pre-run
snapshot or whose modification time strictly increased; each path appears at
most once, in discovery order; untouched files never appear; files no
longer present after the run are not reported. -/
theorem C5_modified_files (env : Env) (preFS postFS : FileState) (m : Method)
    (t : Nat) (hpost : (postFS.map Prod.fst).Nodup) :
    (executeInWorkspace env preFS postFS m t).2 = getModifiedFiles postFS preFS ∧
    (∀ p, p ∈ (executeInWorkspace env preFS postFS m t).2 ↔
      ∃ mt, (p, mt) ∈ postFS ∧ (preFS.lookup p = none ∨
        ∃ m0, preFS.lookup p = some m0 ∧ m0 < mt)) ∧
    ((executeInWorkspace env preFS postFS m t).2).Sublist (postFS.map Prod.fst) ∧
    ((executeInWorkspace env preFS postFS m t).2).Nodup ∧
    (∀ p mt m0, (p, mt) ∈ postFS → preFS.lookup p = some m0 → mt ≤ m0 →
      p ∉ (executeInWorkspace env preFS postFS m t).2) := by
  refine ⟨rfl, fun p => getModifiedFiles_mem _ _ p, getModifiedFiles_sublist _ _,
    hpost.sublist (getModifiedFiles_sublist _ _), ?_⟩
  intro p mt m0 hmem hlk hle hmem2
  have hmem3 := (getModifiedFiles_mem postFS preFS p).mp hmem2
  obtain ⟨mt2, hmem2b, hcond⟩ := hmem3
  have heq : mt2 = mt := nodup_keys_mem_eq postFS hpost p mt2 mt hmem2b hmem
  subst heq
  cases hcond with
  | inl h0 => rw [hlk] at h0; exact Option.noConfusion h0
  | inr h0 =>
    obtain ⟨m1, hm1, hlt⟩ := h0
    rw [hlk] at hm1
    injection hm1 with hm1e
    subst hm1e
    exact absurd hlt (not_lt.mpr hle)

/-- C5 witness: with `a.txt` rewritten (mtime 1 → 2), `b.txt` created, and
`c.txt` untouched, the reported modified files are exactly
`[a.txt, b.txt]`. -/
theorem C5_witness :
    (executeInWorkspace envAllTimeout [("a.txt", 1), ("c.txt", 5)]
      [("a.txt", 2), ("b.txt", 3), ("c.txt", 5)] .arg 1).2 = ["a.txt", "b.txt"] ∧
    "c.txt" ∉ (executeInWorkspace envAllTimeout [("a.txt", 1), ("c.txt", 5)]
      [("a.txt", 2), ("b.txt", 3), ("c.txt", 5)] .arg 1).2 := by
  have h := C5_modified_files envAllTimeout [("a.txt", 1), ("c.txt", 5)]
    [("a.txt", 2), ("b.txt", 3), ("c.txt", 5)] .arg 1 (by decide)
  exact ⟨h.1.trans (by with_unfolding_all rfl),
    h.2.2.2.2 "c.txt" 5 5 (by simp) (by with_unfolding_all rfl) le_rfl⟩

/-! ## C6, C7: orchestrator loop and workflow resolution -/

theorem specIters_length (cfgs : List (String × String)) (run : Nat → Nat → StepExec) :
    ∀ fuel start, (specIters cfgs run start fuel).length = fuel := by
  intro fuel
  induction fuel with
  | zero => intro start; rfl
  | succ f ih => intro start; simp [specIters, ih]

theorem orchGo_no_stop (cfgs : List (String × String)) (run : Nat → Nat → StepExec) :
    ∀ fuel start,
    (∀ j, j < fuel →
      shouldStopIteration (executeWorkflowIteration cfgs (run (start + j))) = false) →
    orchGo cfgs run start fuel = (specIters cfgs run start fuel, false) := by
  intro fuel
  induction fuel with
  | zero => intro start _; rfl
  | succ f ih =>
    intro start h
    have h0 := h 0 (Nat.succ_pos f)
    rw [Nat.add_zero] at h0
    have hrec := ih (start + 1) (fun j hj => by
      have := h (j + 1) (by omega)
      rwa [show start + (j + 1) = start + 1 + j by omega] at this)
    simp only [orchGo, specIters, h0, Bool.false_eq_true, if_false, hrec]

theorem orchGo_stop (cfgs : List (String × String)) (run : Nat → Nat → StepExec) :
    ∀ fuel start k, k < fuel →
    shouldStopIteration (executeWorkflowIteration cfgs (run (start + k))) = true →
    (∀ j, j < k →
      shouldStopIteration (executeWorkflowIteration cfgs (run (start + j))) = false) →
    orchGo cfgs run start fuel = (specIters cfgs run start (k + 1), true) := by
  intro fuel
  induction fuel with
  | zero => intro start k hk; exact absurd hk (Nat.not_lt_zero k)
  | succ f ih =>
    intro start k hk hstop hbefore
    cases k with
    | zero =>
      rw [Nat.add_zero] at hstop
      simp only [orchGo, specIters, hstop, if_true]
    | succ k0 =>
      have h0 := hbefore 0 (Nat.succ_pos k0)
      rw [Nat.add_zero] at h0
      have hrec := ih (start + 1) k0 (by omega)
        (by rwa [show start + 1 + k0 = start + (k0 + 1) by omega])
        (fun j hj => by
          have := hbefore (j + 1) (by omega)
          rwa [show start + (j + 1) = start + 1 + j by omega] at this)
      simp only [orchGo, specIters, h0, Bool.false_eq_true, if_false, hrec]

theorem shouldStop_pointwise (s : StepRecord) :
    ((!(s.task == "review" && decide (3 < s.suggestions.length))) = true) ↔
      (s.task = "review" → s.suggestions.length ≤ 3) := by
  by_cases ht : s.task = "review"
  · simp [ht, not_lt]
  · simp [ht]

theorem shouldStop_iff (ir : IterationRecord) :
    shouldStopIteration ir = true ↔
      ((∀ s ∈ ir.steps, s.success = true) ∧
        (∀ s ∈ ir.steps, s.task = "review" → s.suggestions.length ≤ 3)) := by
  unfold shouldStopIteration
  rw [Bool.and_eq_true, List.all_eq_true, List.all_eq_true]
  constructor
  · rintro ⟨h1, h2⟩
    exact ⟨h1, fun s hs => (shouldStop_pointwise s).mp (h2 s hs)⟩
  · rintro ⟨h1, h2⟩
    exact ⟨h1, fun s hs => (shouldStop_pointwise s).mpr (h2 s hs)⟩

/-- C6: `execute_task` stops with `success=True` after an iteration exactly
when every step of that iteration succeeded and no `review` step reported
more than 3 suggestions; otherwise the next iteration runs, and when all
`max_iterations` iterations pass without the predicate holding the result
has `success=False` with one record per iteration. -/
theorem C6_stop_predicate (cfgs : List (String × String))
    (run : Nat → Nat → StepExec) (n : Nat) :
    (∀ ir : IterationRecord, shouldStopIteration ir = true ↔
      ((∀ s ∈ ir.steps, s.success = true) ∧
        (∀ s ∈ ir.steps, s.task = "review" → s.suggestions.length ≤ 3))) ∧
    ((∀ i, i < n →
        shouldStopIteration (executeWorkflowIteration cfgs (run i)) = false) →
      (executeTaskLoop cfgs run n).success = false ∧
      (executeTaskLoop cfgs run n).iterations.length = n) ∧
    (∀ k, k < n →
      shouldStopIteration (executeWorkflowIteration cfgs (run k)) = true →
      (∀ j, j < k →
        shouldStopIteration (executeWorkflowIteration cfgs (run j)) = false) →
      (executeTaskLoop cfgs run n).success = true ∧
      (executeTaskLoop cfgs run n).iterations.length = k + 1) := by
  refine ⟨shouldStop_iff, ?_, ?_⟩
  · intro h
    simp only [executeTaskLoop]
    rw [orchGo_no_stop cfgs run n 0 (fun j hj => by simpa using h j hj)]
    exact ⟨rfl, specIters_length cfgs run n 0⟩
  · intro k hk hstop hbefore
    simp only [executeTaskLoop]
    rw [orchGo_stop cfgs run n 0 k hk (by simpa using hstop)
      (fun j hj => by simpa using hbefore j hj)]
    exact ⟨rfl, specIters_length cfgs run (k + 1) 0⟩

/-- C6 witness: a 1-step always-succeeding workflow with zero suggestions
stops after iteration 1 with success, and a review workflow always
reporting 5 suggestions exhausts 2 iterations without success. -/
theorem C6_witness :
    (executeTaskLoop [("codex", "implement")] runAllGood 3).success = true ∧
    (executeTaskLoop [("codex", "implement")] runAllGood 3).iterations.length = 1 ∧
    (executeTaskLoop [("gemini", "review")] runFiveSuggestions 2).success = false ∧
    (executeTaskLoop [("gemini", "review")] runFiveSuggestions 2).iterations.length = 2 := by
  have hA := (C6_stop_predicate [("codex", "implement")] runAllGood 3).2.2 0
    (by omega) (by with_unfolding_all rfl) (fun j hj => absurd hj (Nat.not_lt_zero j))
  have hB := (C6_stop_predicate [("gemini", "review")] runFiveSuggestions 2).2.1
    (fun i _ => by with_unfolding_all rfl)
  exact ⟨hA.1, hA.2, hB.1, hB.2⟩

/-- C7 (amended): `execute_task` raises `ValueError` before any agent is
invoked when the workflow name is unknown — and likewise when the named
workflow is configured as an empty list; but a workflow that resolves to
zero usable steps (every configured agent unavailable) does not raise at
all: the call returns a structured result, and with at least one iteration
it returns `success=True` immediately because the empty iteration satisfies
the stop predicate.  `WorkflowError` is never raised. -/
theorem C7_workflow_resolution
    (workflows : String → Option (List (String × String)))
    (avail : List String) (run : Nat → Nat → StepExec) (name : String) (n : Nat) :
    (workflows name = none →
      executeTask workflows avail run name n = .error (workflowNotFoundMsg name)) ∧
    (∀ cfg, workflows name = some cfg → cfg = [] →
      executeTask workflows avail run name n = .error (workflowNotFoundMsg name)) ∧
    (∀ cfg, workflows name = some cfg → cfg ≠ [] →
      (∀ st ∈ cfg, avail.contains st.1 = false) → 1 ≤ n →
      executeTask workflows avail run name n = .ok ⟨[⟨[], none⟩], none, true⟩) ∧
    (∀ cfg, workflows name = some cfg → cfg ≠ [] →
      ∃ r, executeTask workflows avail run name n = .ok r) := by
  refine ⟨?_, ?_, ?_, ?_⟩
  · intro h
    simp [executeTask, h]
  · intro cfg h he
    subst he
    simp [executeTask, h]
  · intro cfg h hne hnone hn
    have hfilter : cfg.filter (fun st => avail.contains st.1) = [] := by
      rw [List.filter_eq_nil]
      intro st hst
      simpa using hnone st hst
    simp only [executeTask, h]
    rw [if_neg (by simpa [List.isEmpty_iff] using hne)]
    rw [hfilter]
    obtain ⟨n0, rfl⟩ := Nat.exists_eq_add_of_le hn
    rw [Nat.add_comm]
    simp [executeTaskLoop, orchGo, executeWorkflowIteration, iterSteps,
      shouldStopIteration]
  · intro cfg h hne
    simp only [executeTask, h]
    rw [if_neg (by simpa [List.isEmpty_iff] using hne)]
    exact ⟨_, rfl⟩

/-- C7 counterexample: a workflow whose only step is bound to an unavailable
agent resolves to zero usable steps, yet `execute_task` raises nothing — no
`WorkflowError` — and returns a structured result with `success=True`. -/
theorem C7_counterexample :
    executeTask wfDemo [] runAllGood "default" 3 = .ok ⟨[⟨[], none⟩], none, true⟩ := by
  with_unfolding_all rfl

/-- C7 witness: an unknown workflow name yields the `ValueError` as an
error before any agent is invoked. -/
theorem C7_witness :
    executeTask wfDemo [] runAllGood "bogus" 3 = .error (workflowNotFoundMsg "bogus") :=
  (C7_workflow_resolution wfDemo [] runAllGood "bogus" 3).1 (by with_unfolding_all rfl)

/-! ## C2: retry with exponential backoff and method fallback -/

theorem specTriedFB_length (fb : List Method) :
    ∀ fuel start, (specTriedFB fb start fuel).length = fuel := by
  intro fuel
  induction fuel with
  | zero => intro start; rfl
  | succ f ih => intro start; simp [specTriedFB, ih]

theorem specTriedFB_getD (fb : List Method) :
    ∀ fuel start j, j < fuel →
      (specTriedFB fb start fuel).getD j .stdin =
        fb.getD (min (start + j) (fb.length - 1)) .stdin := by
  intro fuel
  induction fuel with
  | zero => intro start j hj; exact absurd hj (Nat.not_lt_zero j)
  | succ f ih =>
    intro start j hj
    cases j with
    | zero => simp [specTriedFB]
    | succ j0 =>
      have := ih (start + 1) j0 (by omega)
      rw [show start + 1 + j0 = start + (j0 + 1) by omega] at this
      simpa [specTriedFB] using this

theorem specSleeps_pos (b : ℚ) :
    ∀ fuel start, 1 ≤ start →
      (specSleeps b start fuel).length = fuel ∧
      (∀ j, j < fuel → (specSleeps b start fuel).getD j 0 = b * 2 ^ (start + j - 1)) := by
  intro fuel
  induction fuel with
  | zero => intro start _; exact ⟨rfl, fun j hj => absurd hj (Nat.not_lt_zero j)⟩
  | succ f ih =>
    intro start hstart
    have hne : ¬(start = 0) := by omega
    have hrec := ih (start + 1) (by omega)
    constructor
    · simp [specSleeps, hne, hrec.1]
    · intro j hj
      cases j with
      | zero => simp [specSleeps, hne]
      | succ j0 =>
        have := hrec.2 j0 (by omega)
        rw [show start + 1 + j0 - 1 = start + (j0 + 1) - 1 by omega] at this
        simpa [specSleeps, hne] using this

theorem specSleeps_zero (b : ℚ) (n : Nat) :
    (specSleeps b 0 n).length = n - 1 ∧
    (∀ j, j < n - 1 → (specSleeps b 0 n).getD j 0 = b * 2 ^ j) := by
  cases n with
  | zero => exact ⟨rfl, fun j hj => absurd hj (by omega)⟩
  | succ n0 =>
    have h := specSleeps_pos b n0 1 le_rfl
    constructor
    · simpa [specSleeps] using h.1
    · intro j hj
      have := h.2 j (by omega)
      rw [show 1 + j - 1 = j by omega] at this
      simpa [specSleeps] using this

theorem failedMsg_has (n : Nat) (e : String) :
    strHas (failedMsg n e) ("Failed after " ++ toString n ++ " attempts") = true := by
  have hsplit : failedMsg n e =
      ("Failed after " ++ toString n ++ " attempts") ++ (". Last error: " ++ e) := by
    unfold failedMsg
    simp only [String.append_assoc]
    congr 2
  rw [hsplit]
  exact strHas_of_append _ _

theorem retryGo_all_fail (ex : Nat → Method → ExecTriple) (fb : List Method)
    (b : ℚ) (n : Nat) :
    ∀ fuel attempt lastError, attempt + fuel = n →
    (∀ j, attempt ≤ j → j < n →
      (ex j (fb.getD (min j (fb.length - 1)) .stdin)).success = false) →
    retryGo ex fb b n fuel attempt lastError =
      if fuel = 0 then ⟨⟨false, "", failedMsg n lastError⟩, [], []⟩
      else ⟨⟨false, "", failedMsg n (specLastErrorFB ex fb n)⟩,
        specSleeps b attempt fuel, specTriedFB fb attempt fuel⟩ := by
  intro fuel
  induction fuel with
  | zero => intro attempt lastError _ _; simp [retryGo]
  | succ f ih =>
    intro attempt lastError hsum hfail
    have hf0 : (ex attempt (fb.getD (min attempt (fb.length - 1)) .stdin)).success
        = false := hfail attempt le_rfl (by omega)
    rw [if_neg (Nat.succ_ne_zero f)]
    simp only [retryGo, hf0, Bool.false_eq_true, if_false]
    cases f with
    | zero =>
      have ha : attempt = n - 1 := by omega
      have hbeq : (attempt == n - 1) = true := by simp [ha]
      by_cases hnode : nodeErrSig
          (ex attempt (fb.getD (min attempt (fb.length - 1)) .stdin)).stderr = true
      · rw [if_pos (by rw [hnode, hbeq]; rfl)]
        subst ha
        simp only [specLastErrorFB, specSleeps, specTriedFB, List.append_nil]
        rw [if_pos hnode]
      · have hnode2 : nodeErrSig
            (ex attempt (fb.getD (min attempt (fb.length - 1)) .stdin)).stderr
              = false := by simpa using hnode
        rw [if_neg (by rw [hnode2]; simp)]
        simp only [retryGo]
        subst ha
        simp only [specLastErrorFB, specSleeps, specTriedFB, List.append_nil]
        rw [if_neg hnode]
    | succ f0 =>
      have hne : (attempt == n - 1) = false := by
        rw [beq_eq_false_iff_ne]
        omega
      rw [if_neg (by rw [hne, Bool.and_false]; simp)]
      have hrec := ih (attempt + 1)
        (ex attempt (fb.getD (min attempt (fb.length - 1)) .stdin)).stderr
        (by omega) (fun j hj1 hj2 => hfail j (by omega) hj2)
      rw [if_neg (Nat.succ_ne_zero f0)] at hrec
      rw [hrec]
      simp [specSleeps, specTriedFB]

theorem retryGo_success (ex : Nat → Method → ExecTriple) (fb : List Method)
    (b : ℚ) (n : Nat) :
    ∀ fuel attempt lastError k, attempt + fuel = n → attempt ≤ k → k < n →
    (∀ j, attempt ≤ j → j < k →
      (ex j (fb.getD (min j (fb.length - 1)) .stdin)).success = false) →
    (ex k (fb.getD (min k (fb.length - 1)) .stdin)).success = true →
    retryGo ex fb b n fuel attempt lastError =
      ⟨ex k (fb.getD (min k (fb.length - 1)) .stdin),
        specSleeps b attempt (k + 1 - attempt),
        specTriedFB fb attempt (k + 1 - attempt)⟩ := by
  intro fuel
  induction fuel with
  | zero => intro attempt lastError k hsum hak hkn _ _; omega
  | succ f ih =>
    intro attempt lastError k hsum hak hkn hbefore hsucc
    by_cases hek : attempt = k
    · subst hek
      simp only [retryGo, hsucc, if_true]
      rw [show attempt + 1 - attempt = 1 by omega]
      simp [specSleeps, specTriedFB]
    · have hlt : attempt < k := by omega
      have hf0 : (ex attempt (fb.getD (min attempt (fb.length - 1)) .stdin)).success
          = false := hbefore attempt le_rfl hlt
      simp only [retryGo, hf0, Bool.false_eq_true, if_false]
      have hne : (attempt == n - 1) = false := by
        rw [beq_eq_false_iff_ne]
        omega
      rw [if_neg (by rw [hne, Bool.and_false]; simp)]
      rw [ih (attempt + 1)
        (ex attempt (fb.getD (min attempt (fb.length - 1)) .stdin)).stderr k
        (by omega) (by omega) hkn
        (fun j hj1 hj2 => hbefore j (by omega) hj2) hsucc]
      rw [show k + 1 - attempt = (k - attempt) + 1 by omega,
        show k + 1 - (attempt + 1) = k - attempt by omega]
      simp [specSleeps, specTriedFB,
        show ¬((k - attempt) + 1 = 0) from Nat.succ_ne_zero _]

/-- C2: `execute_with_retry` seeds the fallback list from the preferred
method (`stdin → [stdin, arg, heredoc]`, `arg → [arg, stdin, heredoc]`,
anything else `→ [that, stdin, arg]`); attempt `i` uses
`fallback[min i (len-1)]` and, for `i > 0`, is preceded by a sleep of
`backoff * 2 ^ (i-1)`; the first successful attempt is returned
immediately; and after `n` failing attempts the call returns
`success=False` with a message containing `Failed after <n> attempts`
summarizing the last error, with the Node.js remediation hint substituted
when the last stderr matches the incompatibility signature. -/
theorem C2_retry_fallback (ex : Nat → Method → ExecTriple) (n : Nat) (b : ℚ)
    (m : Method) :
    (fallbackMethods .stdin = [.stdin, .arg, .heredoc] ∧
      fallbackMethods .arg = [.arg, .stdin, .heredoc] ∧
      (∀ m0, m0 ≠ .stdin → m0 ≠ .arg → fallbackMethods m0 = [m0, .stdin, .arg])) ∧
    (∀ i fuel, (specTried m i fuel).length = fuel ∧
      ∀ j, j < fuel → (specTried m i fuel).getD j .stdin = methodAt m (i + j)) ∧
    ((specSleeps b 0 n).length = n - 1 ∧
      ∀ j, j < n - 1 → (specSleeps b 0 n).getD j 0 = b * 2 ^ j) ∧
    (1 ≤ n → (∀ i, i < n → (ex i (methodAt m i)).success = false) →
      executeWithRetry ex n b m =
        ⟨⟨false, "", failedMsg n (specLastError ex m n)⟩,
          specSleeps b 0 n, specTried m 0 n⟩ ∧
      strHas (failedMsg n (specLastError ex m n))
        ("Failed after " ++ toString n ++ " attempts") = true) ∧
    (∀ k, k < n → (∀ j, j < k → (ex j (methodAt m j)).success = false) →
      (ex k (methodAt m k)).success = true →
      executeWithRetry ex n b m =
        ⟨ex k (methodAt m k), specSleeps b 0 (k + 1), specTried m 0 (k + 1)⟩) := by
  refine ⟨⟨rfl, rfl, ?_⟩, ?_, specSleeps_zero b n, ?_, ?_⟩
  · intro m0 h1 h2
    cases m0 with
    | stdin => exact absurd rfl h1
    | file => rfl
    | arg => exact absurd rfl h2
    | heredoc => rfl
  · intro i fuel
    exact ⟨specTriedFB_length (fallbackMethods m) fuel i,
      fun j hj => specTriedFB_getD (fallbackMethods m) fuel i j hj⟩
  · intro hn hfail
    constructor
    · unfold executeWithRetry
      rw [retryGo_all_fail ex (fallbackMethods m) b n n 0 "" (by omega)
        (fun j _ hj2 => hfail j hj2)]
      rw [if_neg (by omega)]
      rfl
    · exact failedMsg_has n _
  · intro k hk hbefore hsucc
    unfold executeWithRetry
    rw [retryGo_success ex (fallbackMethods m) b n n 0 "" k (by omega) (by omega)
      hk (fun j _ hj2 => hbefore j hj2) hsucc]
    rw [show k + 1 - 0 = k + 1 by omega]
    rfl

/-- C2 witness: three always-failing attempts with preferred method stdin
sleep 1 and 2 seconds, try stdin, arg, heredoc in that order, and report
the final failure message. -/
theorem C2_witness :
    executeWithRetry exFail 3 1 .stdin =
      ⟨⟨false, "", "Failed after 3 attempts. Last error: boom"⟩, [1, 2],
        [.stdin, .arg, .heredoc]⟩ := by
  have h := ((C2_retry_fallback exFail 3 1 .stdin).2.2.2.1 (by omega)
    (fun i _ => rfl)).1
  refine h.trans ?_
  with_unfolding_all rfl

end AIOrch
